import Mathlib

/-!
Verification of the incremental indexing pipeline of `src/neurips_2019.py`.

The Python program is embedded shallowly:

* network, the BeautifulSoup HTML parser and the whoosh index are external
  collaborators; they are modelled by an explicit environment `Env` mapping a
  URL to its HTTP response and a raw HTML string to its sequence of structural
  elements (document order), and by a store that is a plain list of documents
  in insertion order;
* the regex scans `EVENT_ID_P.findall` / `SPEAKER_ID_P.findall` are embedded
  as an explicit left-to-right scanner over the character list;
* Python's `str.strip` is embedded as `pyStrip` (drop ASCII whitespace at both
  ends);
* an aborted run (`SystemExit` raised by `_http_get`) is a `RunOut` whose
  `err` field carries the message; the whoosh writer used in `_index_event`
  is a context manager that commits its batch on normal exit and cancels it
  when an exception escapes, so `_index_event` yields either the whole batch
  of documents for one event or no documents at all.
-/

set_option autoImplicit false

namespace NeurIPS

/-- A structural element of a parsed HTML page: tag name, value of the
`class` attribute, and the element's text.  A page is the list of its
elements in document order; `bs4.BeautifulSoup(...).find` is first-match
search over that order, and `find_next_sibling` searches the elements after
the found one (the pages scraped here are flat at the level the code
inspects). -/
structure Elem where
  tag : String
  cls : String
  text : String
deriving DecidableEq

/-- The document record written to the whoosh index by `writer.add_document`. -/
structure Doc where
  url : String
  type : String
  subtype : String
  title : String
  description : String
  org : String
  content : String
deriving DecidableEq

/-- An HTTP response as seen by `_http_get`: `status_code`, `reason`, `text`. -/
structure HttpResp where
  status : Nat
  reason : String
  text : String

/-- The external world of one run: deterministic responses per URL
(`requests.Session.get`), the HTML parser (`bs4.BeautifulSoup`, as the
document-order element list of a page), and the content of the one-entry
disk cache for the index page (`_cached CACHED_INDEX`), `none` when the cache
file is absent. -/
structure Env where
  resp : String → HttpResp
  soup : String → List Elem
  cachedIndex : Option String

/-- Outcome of a run of `_build_index`: the final store contents (list of
documents in insertion order) and, when the run aborted, the `SystemExit`
message. -/
structure RunOut where
  store : List Doc
  err : Option String
deriving DecidableEq

/-! ## String helpers (Python `str.strip`) -/

/-- ASCII whitespace as recognised by Python's `str.strip()` (on the ASCII
subset). -/
def isPySpace (c : Char) : Bool :=
  c = ' ' || c = '\t' || c = '\n' || c = '\r' || c = Char.ofNat 11 || c = Char.ofNat 12

/-- Python `str.strip()`: drop whitespace from both ends. -/
def pyStrip (s : String) : String :=
  String.mk (((s.data.dropWhile isPySpace).reverse.dropWhile isPySpace).reverse)

/-! ## The regex scans (`EVENT_ID_P`, `SPEAKER_ID_P`)

Both patterns are a literal prefix, a nonempty run from a character class,
and a literal suffix; `re.findall` returns the captured runs of successive
leftmost non-overlapping matches.  Because the character after a shortened
greedy run would have to be both in the class and equal to the first suffix
character (impossible for both patterns: `)` and the single quote are in
neither class), greedy matching without backtracking is exact here. -/

/-- A findall pattern: literal prefix, capture character class, literal
suffix. -/
structure ScanPat where
  pre : List Char
  idChar : Char → Bool
  post : List Char

/-- `dropPre? p s` returns `s` minus the literal `p` when `p` is a prefix of
`s`. -/
def dropPre? : List Char → List Char → Option (List Char)
  | [], s => some s
  | _ :: _, [] => none
  | p :: ps, c :: cs => if p = c then dropPre? ps cs else none

/-- Try to match `pat` at the head of `s`; on success return the captured
run and the remainder of `s` after the whole match. -/
def matchHere (pat : ScanPat) (s : List Char) : Option (List Char × List Char) :=
  match dropPre? pat.pre s with
  | none => none
  | some r =>
    let ds := r.takeWhile pat.idChar
    if ds.isEmpty then none
    else
      match dropPre? pat.post (r.dropWhile pat.idChar) with
      | none => none
      | some r2 => some (ds, r2)

/-- Left-to-right scan collecting `(absolute position, capture)` pairs of the
successive leftmost non-overlapping matches.  `fuel` bounds the recursion;
every match consumes at least one character, so `fuel = s.length` is enough. -/
def scanAux (pat : ScanPat) : Nat → Nat → List Char → List (Nat × List Char)
  | 0, _, _ => []
  | _ + 1, _, [] => []
  | fuel + 1, pos, c :: cs =>
    match matchHere pat (c :: cs) with
    | some (cap, r) => (pos, cap) :: scanAux pat fuel (pos + ((c :: cs).length - r.length)) r
    | none => scanAux pat fuel (pos + 1) cs

/-- `re.findall` for a `ScanPat`: the captured runs, in match order. -/
def findallP (pat : ScanPat) (s : String) : List String :=
  (scanAux pat s.data.length 0 s.data).map (fun pc => String.mk pc.2)

/-- Single-quote character (kept out of string literals). -/
def sq : Char := Char.ofNat 39

/-- `EVENT_ID_P`: the pattern `onClick="showDetail\(([0-9]+)\)"`. -/
def eventIdPat : ScanPat :=
  ⟨"onClick=\"showDetail(".data, Char.isDigit, ")\"".data⟩

/-- `SPEAKER_ID_P`: the pattern `onClick="showSpeaker\('([0-9-]+)'\);"`. -/
def speakerIdPat : ScanPat :=
  ⟨"onClick=\"showSpeaker(".data ++ [sq], fun c => c.isDigit || c = '-',
    sq :: ");\"".data⟩

/-- `_index_event_ids`: `EVENT_ID_P.findall(s)`. -/
def _index_event_ids (s : String) : List String := findallP eventIdPat s

/-- `_speaker_ids`: `SPEAKER_ID_P.findall(s)`. -/
def _speaker_ids (s : String) : List String := findallP speakerIdPat s

/-! ## Page parsing (`bs4` landmark lookups) -/

/-- `soup.find(tag, class_=cls)`: first element with the given tag and class. -/
def findTagCls (tag cls : String) (es : List Elem) : Option Elem :=
  es.find? (fun e => e.tag = tag && e.cls = cls)

/-- `soup.find(tag)`: first element with the given tag. -/
def findTag (tag : String) (es : List Elem) : Option Elem :=
  es.find? (fun e => e.tag = tag)

/-- `soup.find("h3").find_next_sibling("div")`: the first `div` after the
first `h3`; `none` when either is absent. -/
def findDivAfterH3 : List Elem → Option Elem
  | [] => none
  | e :: rest =>
    if e.tag = "h3" then rest.find? (fun x => x.tag = "div")
    else findDivAfterH3 rest

/-- `_event_title`: text of the first `div.maincardBody`, stripped; `""` when
absent. -/
def _event_title (es : List Elem) : String :=
  match findTagCls "div" "maincardBody" es with
  | none => ""
  | some e => pyStrip e.text

/-- `_event_abstract`: text of the first `div.abstractContainer`, stripped;
`""` when absent. -/
def _event_abstract (es : List Elem) : String :=
  match findTagCls "div" "abstractContainer" es with
  | none => ""
  | some e => pyStrip e.text

/-- `_event_type`: text of the first
`div.pull-right maincardHeader maincardType`, stripped; `""` when absent. -/
def _event_type (es : List Elem) : String :=
  match findTagCls "div" "pull-right maincardHeader maincardType" es with
  | none => ""
  | some e => pyStrip e.text

/-- `_speaker_name`: text of the first `h3`, stripped; `""` when absent. -/
def _speaker_name (es : List Elem) : String :=
  match findTag "h3" es with
  | none => ""
  | some e => pyStrip e.text

/-- `_speaker_org`: text of the first `h4`, stripped; `""` when absent. -/
def _speaker_org (es : List Elem) : String :=
  match findTag "h4" es with
  | none => ""
  | some e => pyStrip e.text

/-- `_speaker_bio`: text of the first `div` sibling following the first `h3`,
stripped; `""` when the `h3` or the sibling is absent. -/
def _speaker_bio (es : List Elem) : String :=
  match findTag "h3" es with
  | none => ""
  | some _ =>
    match findDivAfterH3 es with
    | none => ""
    | some bio => pyStrip bio.text

/-- `_event_doc`: assemble the event document from a parsed event page. -/
def _event_doc (url : String) (es : List Elem) : Doc :=
  let event_type := _event_type es
  let title := _event_title es
  let abstract := _event_abstract es
  { url := url
    type := "event"
    title := title
    description := abstract
    subtype := event_type
    org := ""
    content := String.intercalate "\n" ["event", event_type, title, abstract] }

/-- `_speaker_doc`: assemble the speaker document from a parsed speaker
page. -/
def _speaker_doc (url : String) (es : List Elem) : Doc :=
  let name := _speaker_name es
  let org := _speaker_org es
  let bio := _speaker_bio es
  { url := url
    type := "speaker"
    subtype := ""
    title := name
    description := bio
    org := org
    content := String.intercalate "\n" ["speaker", name, org, bio] }

/-! ## Fetch client (`_http_get`, `_get_index_html`) -/

def INDEX_URL : String := "https://nips.cc/Conferences/2019/Schedule"

/-- `_event_url`: `EVENT_URL_PATTERN` with the event id substituted. -/
def _event_url (event_id : String) : String :=
  "https://nips.cc/Conferences/2019/Schedule?showEvent=" ++ event_id

/-- `_speaker_url`: `SPEAKER_URL_PATTERN` with the speaker id substituted. -/
def _speaker_url (speaker_id : String) : String :=
  "https://nips.cc/Conferences/2019/Schedule?showSpeaker=" ++ speaker_id

/-- `_http_get`: raise `SystemExit` with a message naming the URL, reason and
status code when the status is not 200, else return `resp.text.strip()`. -/
def _http_get (env : Env) (url : String) : Except String String :=
  let resp := env.resp url
  if resp.status = 200 then .ok (pyStrip resp.text)
  else .error ("error reading '" ++ url ++ "': " ++ resp.reason ++ " (" ++
    toString resp.status ++ ")")

/-- `_get_index_html`: return the cached index page when the cache file holds
non-empty text (`if html:` is false for the empty string), else fetch
`INDEX_URL`.  The write-back to the cache file is a disk effect outside the
model. -/
def _get_index_html (env : Env) : Except String String :=
  match env.cachedIndex with
  | some html => if html.isEmpty then _http_get env INDEX_URL else .ok html
  | none => _http_get env INDEX_URL

/-! ## Indexing orchestrator (`_index_event`, `_build_index`) -/

/-- One speaker of the inner loop of `_index_event`: fetch the speaker page
and build its document. -/
def _fetch_speaker (env : Env) (speaker_id : String) : Except String Doc := do
  let speaker_url := _speaker_url speaker_id
  let speaker_html ← _http_get env speaker_url
  pure (_speaker_doc speaker_url (env.soup speaker_html))

/-- Sequential effectful map; the first error aborts (like the `for` loop
over speaker ids). -/
def mapE {α β : Type} (f : α → Except String β) : List α → Except String (List β)
  | [] => .ok []
  | a :: as => do
    let b ← f a
    let bs ← mapE f as
    pure (b :: bs)

/-- `_index_event`: fetch the event page, build the event document, then one
speaker document per extracted speaker id.  The whoosh writer is a context
manager, so on success the whole batch (event document first) is committed
and on an escaping exception nothing from this event is committed. -/
def _index_event (env : Env) (event_url : String) : Except String (List Doc) := do
  let event_html ← _http_get env event_url
  let sdocs ← mapE (_fetch_speaker env) (_speaker_ids event_html)
  pure (_event_doc event_url (env.soup event_html) :: sdocs)

/-- The documents `_index_event` commits when every fetch it makes succeeds. -/
def _event_docs (env : Env) (event_url : String) : List Doc :=
  let event_html := pyStrip (env.resp event_url).text
  _event_doc event_url (env.soup event_html) ::
    (_speaker_ids event_html).map (fun sid =>
      _speaker_doc (_speaker_url sid) (env.soup (pyStrip (env.resp (_speaker_url sid)).text)))

/-- `_read_data_urls`: the URLs of the documents already in the store (the
whoosh `url` field terms). -/
def _read_data_urls (store : List Doc) : List String :=
  store.map (fun d => d.url)

/-- The test `if args.max_events and indexed >= args.max_events` of
`_build_index`: `None` and `0` are falsy. -/
def _cap_reached : Option Int → Nat → Bool
  | none, _ => false
  | some m, indexed => if m = 0 then false else decide (m ≤ (indexed : Int))

/-- The `for event_id in event_ids` loop of `_build_index`: skip ids whose
URL is in the snapshot, otherwise commit the event's batch, bump the counter
and stop normally when the cap is reached; an aborted `_index_event` ends the
run with its error and the store as already committed. -/
def _build_index_loop (env : Env) (max_events : Option Int) (existing : List String) :
    List String → Nat → List Doc → RunOut
  | [], _, store => ⟨store, none⟩
  | event_id :: rest, indexed, store =>
    if _event_url event_id ∈ existing then
      _build_index_loop env max_events existing rest indexed store
    else
      match _index_event env (_event_url event_id) with
      | .error e => ⟨store, some e⟩
      | .ok docs =>
        if _cap_reached max_events (indexed + 1) then ⟨store ++ docs, none⟩
        else _build_index_loop env max_events existing rest (indexed + 1) (store ++ docs)

/-- `_build_index`: obtain the index page, snapshot the stored URLs once, and
run the event loop from a zero counter over the extracted event ids. -/
def _build_index (env : Env) (max_events : Option Int) (store0 : List Doc) : RunOut :=
  match _get_index_html env with
  | .error e => ⟨store0, some e⟩
  | .ok index_html =>
    _build_index_loop env max_events (_read_data_urls store0)
      (_index_event_ids index_html) 0 store0

/-- The event ids of a run that are new with respect to the snapshot
(occurrences kept, as in the loop). -/
def newIds (existing : List String) (ids : List String) : List String :=
  ids.filter (fun id => decide (_event_url id ∉ existing))

/-! ## Basic lemmas about the fetch client and `_index_event` -/

theorem _http_get_ok_of_200 (env : Env) (url : String)
    (h : (env.resp url).status = 200) :
    _http_get env url = .ok (pyStrip (env.resp url).text) := by
  simp [_http_get, h]

theorem _http_get_ok_inv (env : Env) (url : String) (t : String)
    (h : _http_get env url = .ok t) :
    (env.resp url).status = 200 ∧ t = pyStrip (env.resp url).text := by
  by_cases h200 : (env.resp url).status = 200
  · refine ⟨h200, ?_⟩
    simp [_http_get, h200] at h
    exact h.symm
  · simp [_http_get, h200] at h

theorem except_bind_ok {ε α β : Type} (a : α) (f : α → Except ε β) :
    (Except.ok a >>= f) = f a := rfl

theorem except_bind_error {ε α β : Type} (e : ε) (f : α → Except ε β) :
    ((Except.error e : Except ε α) >>= f) = .error e := rfl

theorem except_map_ok {ε α β : Type} (f : α → β) (a : α) :
    (f <$> (Except.ok a : Except ε α)) = .ok (f a) := rfl

theorem except_map_error {ε α β : Type} (f : α → β) (e : ε) :
    (f <$> (Except.error e : Except ε α)) = (.error e : Except ε β) := rfl

theorem except_pure {ε α : Type} (a : α) : (pure a : Except ε α) = .ok a := rfl

theorem mapE_ok {α β : Type} (f : α → Except String β) (g : α → β) (l : List α)
    (h : ∀ a ∈ l, f a = .ok (g a)) : mapE f l = .ok (l.map g) := by
  induction l with
  | nil => rfl
  | cons a as ih =>
    have ha := h a (by simp)
    have hrest := ih (fun x hx => h x (by simp [hx]))
    simp [mapE, ha, hrest, except_bind_ok, except_pure]

theorem mapE_ok_inv {α β : Type} (f : α → Except String β) (l : List α)
    (bs : List β) (h : mapE f l = .ok bs) :
    List.Forall₂ (fun a b => f a = .ok b) l bs := by
  induction l generalizing bs with
  | nil =>
    simp [mapE, except_pure] at h
    subst h
    exact List.Forall₂.nil
  | cons a as ih =>
    simp only [mapE] at h
    cases hfa : f a with
    | error e => simp [hfa, except_bind_error] at h
    | ok b =>
      simp only [hfa, except_bind_ok] at h
      cases hrest : mapE f as with
      | error e => simp [hrest, except_bind_error, except_map_error] at h
      | ok bs' =>
        simp [hrest, except_bind_ok, except_map_ok, except_pure] at h
        subst h
        exact List.Forall₂.cons hfa (ih bs' hrest)

theorem forall2_ok_map {α β : Type} (f : α → Except String β) (g : α → β)
    (hpt : ∀ a b, f a = .ok b → b = g a) :
    ∀ {l : List α} {bs : List β},
      List.Forall₂ (fun a b => f a = .ok b) l bs → bs = l.map g := by
  intro l bs h
  induction h with
  | nil => rfl
  | cons hfb _ ih => simp [List.map, ih, hpt _ _ hfb]

theorem _fetch_speaker_ok_inv (env : Env) (sid : String) (d : Doc)
    (h : _fetch_speaker env sid = .ok d) :
    d = _speaker_doc (_speaker_url sid) (env.soup (pyStrip (env.resp (_speaker_url sid)).text)) := by
  unfold _fetch_speaker at h
  cases hget : _http_get env (_speaker_url sid) with
  | error e => simp [hget, except_bind_error] at h
  | ok t =>
    obtain ⟨_, ht⟩ := _http_get_ok_inv env (_speaker_url sid) t hget
    simp [hget, except_bind_ok, except_pure] at h
    rw [← h, ht]

theorem _index_event_ok_all200 (env : Env) (url : String)
    (h : ∀ u, (env.resp u).status = 200) :
    _index_event env url = .ok (_event_docs env url) := by
  have hget := _http_get_ok_of_200 env url (h url)
  have hmap : mapE (_fetch_speaker env) (_speaker_ids (pyStrip (env.resp url).text)) =
      .ok ((_speaker_ids (pyStrip (env.resp url).text)).map (fun sid =>
        _speaker_doc (_speaker_url sid) (env.soup (pyStrip (env.resp (_speaker_url sid)).text)))) := by
    refine mapE_ok _ _ _ (fun sid _ => ?_)
    simp [_fetch_speaker, _http_get_ok_of_200 env (_speaker_url sid) (h _), except_bind_ok,
      except_pure]
  simp [_index_event, hget, except_bind_ok, hmap, except_pure, _event_docs]

theorem _index_event_ok_inv (env : Env) (url : String) (ds : List Doc)
    (h : _index_event env url = .ok ds) : ds = _event_docs env url := by
  unfold _index_event at h
  cases hget : _http_get env url with
  | error e => simp [hget, except_bind_error] at h
  | ok t =>
    obtain ⟨_, ht⟩ := _http_get_ok_inv env url t hget
    subst ht
    simp only [hget, except_bind_ok] at h
    cases hmap : mapE (_fetch_speaker env) (_speaker_ids (pyStrip (env.resp url).text)) with
    | error e => simp [hmap, except_bind_error] at h
    | ok sdocs =>
      simp only [hmap, except_bind_ok, except_pure, Except.ok.injEq] at h
      have hmapeq := forall2_ok_map (_fetch_speaker env)
        (fun sid => _speaker_doc (_speaker_url sid)
          (env.soup (pyStrip (env.resp (_speaker_url sid)).text)))
        (fun a b hb => _fetch_speaker_ok_inv env a b hb) (mapE_ok_inv _ _ _ hmap)
      rw [← h, hmapeq, _event_docs]

/-! ## Lemmas about the event loop -/

theorem _cap_reached_pos (N : Nat) (hN : 0 < N) (k : Nat) :
    _cap_reached (some (N : Int)) k = decide (N ≤ k) := by
  have : (N : Int) ≠ 0 := by exact_mod_cast Nat.pos_iff_ne_zero.mp hN
  simp [_cap_reached, this]

theorem _cap_reached_neg (m : Int) (hm : m < 0) (k : Nat) :
    _cap_reached (some m) k = true := by
  have h0 : m ≠ 0 := by omega
  have hk2 : m ≤ (k : Int) := le_trans hm.le (Int.natCast_nonneg k)
  simp [_cap_reached, h0, hk2]

theorem loop_store_mono (env : Env) (max_events : Option Int) (existing : List String)
    (ids : List String) (n : Nat) (store : List Doc) :
    ∃ extra, (_build_index_loop env max_events existing ids n store).store = store ++ extra := by
  induction ids generalizing n store with
  | nil => exact ⟨[], by simp [_build_index_loop]⟩
  | cons id rest ih =>
    by_cases hmem : _event_url id ∈ existing
    · simpa [_build_index_loop, hmem] using ih n store
    · cases hie : _index_event env (_event_url id) with
      | error e => exact ⟨[], by simp [_build_index_loop, hmem, hie]⟩
      | ok docs =>
        by_cases hcap : _cap_reached max_events (n + 1)
        · exact ⟨docs, by simp [_build_index_loop, hmem, hie, hcap]⟩
        · obtain ⟨extra, hextra⟩ := ih (n + 1) (store ++ docs)
          exact ⟨docs ++ extra, by simp [_build_index_loop, hmem, hie, hcap, hextra]⟩

theorem loop_skip_all (env : Env) (max_events : Option Int) (existing : List String)
    (ids : List String) (n : Nat) (store : List Doc)
    (h : ∀ id ∈ ids, _event_url id ∈ existing) :
    _build_index_loop env max_events existing ids n store = ⟨store, none⟩ := by
  induction ids with
  | nil => simp [_build_index_loop]
  | cons id rest ih =>
    have hid : _event_url id ∈ existing := h id (by simp)
    simp only [_build_index_loop, if_pos hid]
    exact ih (fun x hx => h x (by simp [hx]))

theorem newIds_nil (existing : List String) : newIds existing [] = [] := rfl

theorem newIds_cons_mem {existing : List String} {id : String} (rest : List String)
    (h : _event_url id ∈ existing) :
    newIds existing (id :: rest) = newIds existing rest := by
  simp [newIds, List.filter_cons, h]

theorem newIds_cons_not_mem {existing : List String} {id : String} (rest : List String)
    (h : _event_url id ∉ existing) :
    newIds existing (id :: rest) = id :: newIds existing rest := by
  simp [newIds, List.filter_cons, h]

theorem _read_data_urls_append (s t : List Doc) :
    _read_data_urls (s ++ t) = _read_data_urls s ++ _read_data_urls t := by
  simp [_read_data_urls]

theorem urls_mono (env : Env) (max_events : Option Int) (existing : List String)
    (ids : List String) (n : Nat) (store : List Doc) (u : String)
    (h : u ∈ _read_data_urls store) :
    u ∈ _read_data_urls (_build_index_loop env max_events existing ids n store).store := by
  obtain ⟨extra, hextra⟩ := loop_store_mono env max_events existing ids n store
  rw [hextra, _read_data_urls_append]
  exact List.mem_append_left _ h

/-- With every response a 200 and more new ids available than the remaining
cap allows, the loop indexes exactly the first `N - n` new ids and stops
normally. -/
theorem loop_cap (env : Env) (N : Nat) (hN : 0 < N) (existing : List String)
    (h200 : ∀ u, (env.resp u).status = 200) :
    ∀ (ids : List String) (n : Nat) (store : List Doc),
      n < N → N < n + (newIds existing ids).length →
      _build_index_loop env (some (N : Int)) existing ids n store =
        ⟨store ++ ((newIds existing ids).take (N - n)).flatMap
          (fun id => _event_docs env (_event_url id)), none⟩ := by
  intro ids
  induction ids with
  | nil =>
    intro n store hn hlen
    rw [newIds_nil] at hlen
    simp at hlen
    omega
  | cons id rest ih =>
    intro n store hn hlen
    by_cases hmem : _event_url id ∈ existing
    · rw [newIds_cons_mem rest hmem] at hlen ⊢
      simp only [_build_index_loop, if_pos hmem]
      exact ih n store hn hlen
    · rw [newIds_cons_not_mem rest hmem] at hlen ⊢
      simp only [_build_index_loop, if_neg hmem, _index_event_ok_all200 env _ h200]
      rw [_cap_reached_pos N hN (n + 1)]
      by_cases hfull : N ≤ n + 1
      · have hNn : N - n = 1 := by omega
        simp [hfull, hNn]
      · have hrec := ih (n + 1) (store ++ _event_docs env (_event_url id))
          (by omega) (by simp at hlen ⊢; omega)
        have hNn : N - n = (N - (n + 1)) + 1 := by omega
        simp only [hfull, decide_eq_true_eq, if_neg hfull, hrec, hNn, List.take_succ_cons,
          List.flatMap_cons, List.append_assoc, if_false]


/-- With a negative cap and every response a 200, the loop indexes exactly the
first new id and stops normally, whatever the counter already holds. -/
theorem loop_neg_cap (env : Env) (m : Int) (hm : m < 0) (existing : List String)
    (h200 : ∀ u, (env.resp u).status = 200) :
    ∀ (ids : List String) (n : Nat) (store : List Doc) (id : String) (tl : List String),
      newIds existing ids = id :: tl →
      _build_index_loop env (some m) existing ids n store =
        ⟨store ++ _event_docs env (_event_url id), none⟩ := by
  intro ids
  induction ids with
  | nil => intro n store id tl h; rw [newIds_nil] at h; cases h
  | cons hd rest ih =>
    intro n store id tl h
    by_cases hmem : _event_url hd ∈ existing
    · rw [newIds_cons_mem rest hmem] at h
      simp only [_build_index_loop, if_pos hmem]
      exact ih n store id tl h
    · rw [newIds_cons_not_mem rest hmem] at h
      injection h with h1 h2
      subst h1
      simp [_build_index_loop, if_neg hmem, _index_event_ok_all200 env _ h200,
        _cap_reached_neg m hm (n + 1)]

/-- When a loop with no cap ends without error, every event id it was given
has its URL among the stored URLs at the end (provided the snapshot only
contains stored URLs). -/
theorem loop_none_all_urls (env : Env) (existing : List String) :
    ∀ (ids : List String) (n : Nat) (store : List Doc),
      (∀ u ∈ existing, u ∈ _read_data_urls store) →
      (_build_index_loop env none existing ids n store).err = none →
      ∀ id ∈ ids,
        _event_url id ∈ _read_data_urls (_build_index_loop env none existing ids n store).store := by
  intro ids
  induction ids with
  | nil => intro n store _ _ id hid; cases hid
  | cons hd rest ih =>
    intro n store hsub herr id hid
    by_cases hmem : _event_url hd ∈ existing
    · simp only [_build_index_loop, if_pos hmem] at herr ⊢
      rcases List.mem_cons.mp hid with rfl | hid'
      · exact urls_mono env none existing rest n store _ (hsub _ hmem)
      · exact ih n store hsub herr id hid'
    · simp only [_build_index_loop, if_neg hmem] at herr ⊢
      cases hie : _index_event env (_event_url hd) with
      | error e => simp [hie] at herr
      | ok docs =>
        have hdocs := _index_event_ok_inv env _ docs hie
        have hcap : _cap_reached none (n + 1) = false := rfl
        simp only [hie, hcap, Bool.false_eq_true, if_false] at herr ⊢
        have hin : _event_url hd ∈ _read_data_urls (store ++ docs) := by
          rw [_read_data_urls_append]
          refine List.mem_append_right _ ?_
          rw [hdocs]
          simp [_event_docs, _read_data_urls, _event_doc]
        have hsub2 : ∀ u ∈ existing, u ∈ _read_data_urls (store ++ docs) := by
          intro u hu
          rw [_read_data_urls_append]
          exact List.mem_append_left _ (hsub u hu)
        rcases List.mem_cons.mp hid with rfl | hid'
        · exact urls_mono env none existing rest (n + 1) (store ++ docs) _ hin
        · exact ih (n + 1) (store ++ docs) hsub2 herr id hid'

/-- When the loop aborts, the new ids split as `pre ++ id :: post`: every
event of `pre` was fetched successfully and its batch committed in order,
event `id` is the one whose batch aborted with the reported error, and
nothing after it was processed. -/
theorem loop_err_some (env : Env) (max_events : Option Int) (existing : List String) :
    ∀ (ids : List String) (n : Nat) (store : List Doc) (e : String),
      (_build_index_loop env max_events existing ids n store).err = some e →
      ∃ pre id post,
        newIds existing ids = pre ++ id :: post ∧
        (∀ i ∈ pre, _index_event env (_event_url i) = .ok (_event_docs env (_event_url i))) ∧
        _index_event env (_event_url id) = .error e ∧
        (_build_index_loop env max_events existing ids n store).store =
          store ++ pre.flatMap (fun i => _event_docs env (_event_url i)) := by
  intro ids
  induction ids with
  | nil => intro n store e herr; simp [_build_index_loop] at herr
  | cons hd rest ih =>
    intro n store e herr
    by_cases hmem : _event_url hd ∈ existing
    · simp only [_build_index_loop, if_pos hmem] at herr ⊢
      obtain ⟨pre, id, post, h1, h2, h3, h4⟩ := ih n store e herr
      exact ⟨pre, id, post, by rw [newIds_cons_mem rest hmem]; exact h1, h2, h3, h4⟩
    · simp only [_build_index_loop, if_neg hmem] at herr ⊢
      cases hie : _index_event env (_event_url hd) with
      | error e' =>
        simp only [hie] at herr ⊢
        injection herr with he
        subst he
        refine ⟨[], hd, newIds existing rest,
          by rw [newIds_cons_not_mem rest hmem]; simp, ?_, hie, ?_⟩
        · intro i hi; cases hi
        · simp
      | ok docs =>
        have hdocs := _index_event_ok_inv env _ docs hie
        by_cases hcap : _cap_reached max_events (n + 1)
        · simp [hie, hcap] at herr
        · simp only [hie, hcap, Bool.false_eq_true, if_false] at herr ⊢
          obtain ⟨pre, id, post, h1, h2, h3, h4⟩ := ih (n + 1) (store ++ docs) e herr
          refine ⟨hd :: pre, id, post, ?_, ?_, h3, ?_⟩
          · rw [newIds_cons_not_mem rest hmem, h1]; simp
          · intro i hi
            rcases List.mem_cons.mp hi with rfl | hi'
            · rw [hie, hdocs]
            · exact h2 i hi'
          · rw [h4, hdocs, List.flatMap_cons, List.append_assoc]

/-- Every document the loop adds that carries `type = "event"` has a URL that
was not in the snapshot: stored event URLs are never re-written within the
run that snapshotted them. -/
theorem loop_event_new (env : Env) (max_events : Option Int) (existing : List String) :
    ∀ (ids : List String) (n : Nat) (store : List Doc),
      ∀ d ∈ (_build_index_loop env max_events existing ids n store).store,
        d ∈ store ∨ (d.type = "event" → d.url ∉ existing) := by
  intro ids
  induction ids with
  | nil => intro n store d hmemd; simp [_build_index_loop] at hmemd; exact Or.inl hmemd
  | cons x rest ih =>
    intro n store d hmemd
    by_cases hmem : _event_url x ∈ existing
    · simp only [_build_index_loop, if_pos hmem] at hmemd
      exact ih n store d hmemd
    · simp only [_build_index_loop, if_neg hmem] at hmemd
      cases hie : _index_event env (_event_url x) with
      | error e => simp only [hie] at hmemd; exact Or.inl hmemd
      | ok docs =>
        have hdocs := _index_event_ok_inv env _ docs hie
        have hnewdoc : ∀ d2 ∈ docs, d2.type = "event" → d2.url ∉ existing := by
          intro d2 hdmem htype
          rw [hdocs] at hdmem
          rcases List.mem_cons.mp hdmem with rfl | hdmem2
          · simpa [_event_doc] using hmem
          · obtain ⟨sid, _, rfl⟩ := List.mem_map.mp hdmem2
            simp [_speaker_doc] at htype
        by_cases hcap : _cap_reached max_events (n + 1)
        · simp only [hie, hcap, if_true] at hmemd
          rcases List.mem_append.mp hmemd with h | h
          · exact Or.inl h
          · exact Or.inr (hnewdoc d h)
        · simp only [hie, hcap, Bool.false_eq_true, if_false] at hmemd
          rcases ih (n + 1) (store ++ docs) d hmemd with h | h
          · rcases List.mem_append.mp h with h2 | h2
            · exact Or.inl h2
            · exact Or.inr (hnewdoc d h2)
          · exact Or.inr h

/-! ## Lemmas about the findall scanner -/

theorem matchHere_nil (pat : ScanPat) : matchHere pat [] = none := by
  cases hpre : pat.pre with
  | nil => unfold matchHere; rw [hpre]; simp [dropPre?]
  | cons p ps => unfold matchHere; rw [hpre]; simp [dropPre?]

theorem dropPre?_eq (p : List Char) :
    ∀ (s r : List Char), dropPre? p s = some r → p ++ r = s := by
  induction p with
  | nil => intro s r h; simp [dropPre?] at h; subst h; rfl
  | cons c cs ih =>
    intro s r h
    cases s with
    | nil => simp [dropPre?] at h
    | cons x xs =>
      simp only [dropPre?] at h
      by_cases hcx : c = x
      · subst hcx
        simp only [if_pos rfl] at h
        simpa using ih xs r h
      · simp [hcx] at h

theorem matchHere_split (pat : ScanPat) (s cap r : List Char)
    (h : matchHere pat s = some (cap, r)) :
    ∃ t, t ++ r = s ∧ 0 < t.length := by
  unfold matchHere at h
  cases hp : dropPre? pat.pre s with
  | none => simp [hp] at h
  | some r0 =>
    have hs0 : pat.pre ++ r0 = s := dropPre?_eq _ _ _ hp
    simp only [hp] at h
    by_cases hds : (r0.takeWhile pat.idChar).isEmpty
    · simp [hds] at h
    · simp only [hds, Bool.false_eq_true, if_false] at h
      cases hq : dropPre? pat.post (r0.dropWhile pat.idChar) with
      | none => simp [hq] at h
      | some r2 =>
        have hr1 : pat.post ++ r2 = r0.dropWhile pat.idChar := dropPre?_eq _ _ _ hq
        simp only [hq, Option.some.injEq, Prod.mk.injEq] at h
        obtain ⟨hcap, hr⟩ := h
        subst hr
        refine ⟨pat.pre ++ r0.takeWhile pat.idChar ++ pat.post, ?_, ?_⟩
        · rw [List.append_assoc, List.append_assoc, hr1]
          rw [List.takeWhile_append_dropWhile, hs0]
        · have hlen : 0 < (r0.takeWhile pat.idChar).length := by
            cases hh : r0.takeWhile pat.idChar with
            | nil => rw [hh] at hds; simp at hds
            | cons a as => simp [hh]
          simp
          omega

theorem matchHere_lt (pat : ScanPat) (s cap r : List Char)
    (h : matchHere pat s = some (cap, r)) : r.length < s.length := by
  obtain ⟨t, ht, htpos⟩ := matchHere_split pat s cap r h
  have := congrArg List.length ht
  simp at this
  omega

theorem drop_len_append (t : List Char) :
    ∀ (r : List Char) (k : Nat), (t ++ r).drop (t.length + k) = r.drop k := by
  induction t with
  | nil => intro r k; simp
  | cons c cs ih => intro r k; simp [Nat.succ_add]

/-- Soundness of the scanner: every reported pair is a genuine match of the
pattern at its reported position. -/
theorem scanAux_sound (pat : ScanPat) :
    ∀ (fuel pos : Nat) (s : List Char),
      ∀ pc ∈ scanAux pat fuel pos s,
        pos ≤ pc.1 ∧ (matchHere pat (s.drop (pc.1 - pos))).map Prod.fst = some pc.2 := by
  intro fuel
  induction fuel with
  | zero => intro pos s pc h; simp [scanAux] at h
  | succ fuel ih =>
    intro pos s pc h
    cases s with
    | nil => simp [scanAux] at h
    | cons c cs =>
      simp only [scanAux] at h
      cases hm : matchHere pat (c :: cs) with
      | some m =>
        obtain ⟨cap, r⟩ := m
        simp only [hm] at h
        rcases List.mem_cons.mp h with rfl | h2
        · simp [hm]
        · obtain ⟨t, ht, htpos⟩ := matchHere_split pat _ _ _ hm
          have htlen : t.length = (c :: cs).length - r.length := by
            have := congrArg List.length ht
            simp at this
            simp
            omega
          obtain ⟨hle, hmatch⟩ := ih (pos + ((c :: cs).length - r.length)) r pc h2
          constructor
          · omega
          · rw [← hmatch]
            have hlen2 : (c :: cs).length - r.length = t.length := htlen.symm
            rw [hlen2]
            congr 2
            rw [← ht]
            have hidx : pc.1 - pos = t.length + (pc.1 - (pos + t.length)) := by omega
            rw [hidx, drop_len_append]
      | none =>
        simp only [hm] at h
        obtain ⟨hle, hmatch⟩ := ih (pos + 1) cs pc h
        constructor
        · omega
        · rw [← hmatch]
          congr 1
          have hidx : pc.1 - pos = (pc.1 - (pos + 1)) + 1 := by omega
          rw [hidx]
          rfl

/-- The scanner reports positions in strictly increasing (left-to-right)
order. -/
theorem scanAux_chain (pat : ScanPat) :
    ∀ (fuel pos : Nat) (s : List Char),
      List.Chain' (· < ·) ((scanAux pat fuel pos s).map Prod.fst) := by
  intro fuel
  induction fuel with
  | zero => intro pos s; simp [scanAux]
  | succ fuel ih =>
    intro pos s
    cases s with
    | nil => simp [scanAux]
    | cons c cs =>
      simp only [scanAux]
      cases hm : matchHere pat (c :: cs) with
      | some m =>
        obtain ⟨cap, r⟩ := m
        simp only [List.map_cons]
        rw [List.chain'_cons']
        refine ⟨?_, ih _ r⟩
        intro b hb
        have hblt := matchHere_lt pat _ _ _ hm
        have hconsume : 0 < (c :: cs).length - r.length := by simp at hblt ⊢; omega
        obtain ⟨pc, hpc, rfl⟩ := List.mem_map.mp (List.mem_of_mem_head? hb)
        have := (scanAux_sound pat fuel (pos + ((c :: cs).length - r.length)) r pc hpc).1
        omega
      | none => exact ih (pos + 1) cs

/-- With enough fuel, the scan is empty exactly when the pattern matches at
no position of the text. -/
theorem scanAux_nil_iff (pat : ScanPat) :
    ∀ (fuel : Nat) (s : List Char) (pos : Nat), s.length ≤ fuel →
      (scanAux pat fuel pos s = [] ↔ ∀ i, matchHere pat (s.drop i) = none) := by
  intro fuel
  induction fuel with
  | zero =>
    intro s pos hlen
    have : s = [] := List.length_eq_zero.mp (Nat.le_zero.mp hlen)
    subst this
    simp [scanAux, matchHere_nil]
  | succ fuel ih =>
    intro s pos hlen
    cases s with
    | nil => simp [scanAux, matchHere_nil]
    | cons c cs =>
      simp only [scanAux]
      cases hm : matchHere pat (c :: cs) with
      | some m =>
        constructor
        · intro h; cases h
        · intro h
          have := h 0
          simp [hm] at this
      | none =>
        have hlen2 : cs.length ≤ fuel := by simp at hlen; omega
        rw [ih cs (pos + 1) hlen2]
        constructor
        · intro h i
          cases i with
          | zero => simpa using hm
          | succ j => exact h j
        · intro h i
          exact h (i + 1)

theorem forall2_of_mem (l : List (Nat × List Char)) (P : Nat → String → Prop)
    (h : ∀ pc ∈ l, P pc.1 (String.mk pc.2)) :
    List.Forall₂ P (l.map Prod.fst) (l.map (fun pc => String.mk pc.2)) := by
  induction l with
  | nil => exact List.Forall₂.nil
  | cons pc rest ih =>
    exact List.Forall₂.cons (h pc (by simp)) (ih (fun x hx => h x (by simp [hx])))

/-! ## Concrete environments used by witnesses and counterexamples -/

/-- The inline `onClick` fragment that links a page to speaker `id` (built
character-wise to keep the quote characters explicit). -/
def spkTag (id : String) : String :=
  String.mk ("onClick=\"showSpeaker(".data ++ [sq] ++ id.data ++ [sq] ++ ");\"".data)

/-- Index page listing events 1 and 2. -/
def htmlA : String := "onClick=\"showDetail(1)\" onClick=\"showDetail(2)\""

/-- A fully reachable world: events 1 and 2 on the index page, both event
pages naming the same speaker 7, every response a 200. -/
def envA : Env :=
  { resp := fun u =>
      ⟨200, "OK",
        if u = _event_url "1" then spkTag "7"
        else if u = _event_url "2" then spkTag "7"
        else ""⟩
    soup := fun _ => []
    cachedIndex := some htmlA }

/-- Index page listing events 1, 2 and 3. -/
def htmlC1 : String :=
  "onClick=\"showDetail(1)\" onClick=\"showDetail(2)\" onClick=\"showDetail(3)\""

/-- Three speakerless events, every response a 200. -/
def envC1 : Env :=
  { resp := fun _ => ⟨200, "OK", ""⟩
    soup := fun _ => []
    cachedIndex := some htmlC1 }

/-! ## Claim C4 -/

/-- A speaker page with name `N`, affiliation `O` and bio `B`. -/
def c4soup : List Elem := [⟨"h3", "", "N"⟩, ⟨"h4", "", "O"⟩, ⟨"div", "", "B"⟩]

/-- Claim C4 as stated is false: the speaker `content` field is NOT joined in
the order type, org, title, description.  On a speaker page with name `N`,
org `O`, bio `B` the content is `speaker\nN\nO\nB` (title before org), not
`speaker\nO\nN\nB`. -/
theorem c4_counterexample :
    (_speaker_doc "u" c4soup).content = "speaker\nN\nO\nB" ∧
    (_speaker_doc "u" c4soup).content ≠
      String.intercalate "\n" [(_speaker_doc "u" c4soup).type, (_speaker_doc "u" c4soup).org,
        (_speaker_doc "u" c4soup).title, (_speaker_doc "u" c4soup).description] := by
  constructor
  · decide
  · decide

/-- Claim C4 (amended): for every speaker document, `content` is the
newline-joined concatenation of the other fields in the order type
("speaker"), then title (the name), then org, then description (the bio). -/
theorem c4_speaker_content (url : String) (es : List Elem) :
    (_speaker_doc url es).content =
      String.intercalate "\n" [(_speaker_doc url es).type, (_speaker_doc url es).title,
        (_speaker_doc url es).org, (_speaker_doc url es).description] := rfl

/-! ## Claim C5 -/

/-- The event page of the scenario: title `Talk X`, type `Oral`, abstract
`About X`. -/
def c5soup : List Elem :=
  [⟨"div", "maincardBody", "Talk X"⟩,
   ⟨"div", "pull-right maincardHeader maincardType", "Oral"⟩,
   ⟨"div", "abstractContainer", "About X"⟩]

/-- Claim C5: the event document built from URL `u` and a parsed event page
has `url = u`, `type = "event"`, `org = ""`, title/subtype/description the
stripped texts of their landmarks, and `content` the newline-join of
"event", subtype, title, description. -/
theorem c5_event_doc (u : String) (es : List Elem) (tt et ab : Elem)
    (htitle : findTagCls "div" "maincardBody" es = some tt)
    (htype : findTagCls "div" "pull-right maincardHeader maincardType" es = some et)
    (habs : findTagCls "div" "abstractContainer" es = some ab) :
    (_event_doc u es).url = u ∧
    (_event_doc u es).type = "event" ∧
    (_event_doc u es).org = "" ∧
    (_event_doc u es).title = pyStrip tt.text ∧
    (_event_doc u es).subtype = pyStrip et.text ∧
    (_event_doc u es).description = pyStrip ab.text ∧
    (_event_doc u es).content =
      String.intercalate "\n" ["event", (_event_doc u es).subtype, (_event_doc u es).title,
        (_event_doc u es).description] := by
  refine ⟨rfl, rfl, rfl, ?_, ?_, ?_, rfl⟩
  · simp [_event_doc, _event_title, htitle]
  · simp [_event_doc, _event_type, htype]
  · simp [_event_doc, _event_abstract, habs]

/-- The C5 scenario: on `c5soup` the event document has content
`event\nOral\nTalk X\nAbout X`. -/
theorem c5_event_doc_witness :
    (_event_doc (_event_url "42") c5soup).url = _event_url "42" ∧
    (_event_doc (_event_url "42") c5soup).content = "event\nOral\nTalk X\nAbout X" := by
  have h := c5_event_doc (_event_url "42") c5soup
    ⟨"div", "maincardBody", "Talk X"⟩
    ⟨"div", "pull-right maincardHeader maincardType", "Oral"⟩
    ⟨"div", "abstractContainer", "About X"⟩
    (by decide) (by decide) (by decide)
  exact ⟨h.1, (h.2.2.2.2.2.2).trans (by decide)⟩

/-! ## Claim C7 -/

/-- A world answering every URL with status 200 and body ` hi `. -/
def c7ok : Env := ⟨fun _ => ⟨200, "OK", " hi "⟩, fun _ => [], none⟩

/-- A world answering every URL with status 404. -/
def c7bad : Env := ⟨fun _ => ⟨404, "Not Found", ""⟩, fun _ => [], none⟩

/-- Claim C7 as stated is false in its success half: on a 200 response the
fetch returns the response text STRIPPED of surrounding whitespace, not the
response text (body ` hi ` comes back as `hi`). -/
theorem c7_counterexample :
    _http_get c7ok "u" = .ok "hi" ∧ (c7ok.resp "u").text ≠ "hi" := by
  constructor
  · rfl
  · decide

/-- Claim C7 (amended): the fetch fails with a message carrying the URL, the
reason phrase and the status code exactly when the status is not 200 (the
code treats 200 as the only success status), and on a 200 it returns the
response text stripped of leading and trailing whitespace. -/
theorem c7_http_get (env : Env) (url : String) :
    ((env.resp url).status = 200 →
      _http_get env url = .ok (pyStrip (env.resp url).text)) ∧
    ((env.resp url).status ≠ 200 →
      ∃ s1 s2 s3 s4, _http_get env url =
        .error (s1 ++ url ++ s2 ++ (env.resp url).reason ++ s3 ++
          toString (env.resp url).status ++ s4)) ∧
    ((∃ e, _http_get env url = .error e) ↔ (env.resp url).status ≠ 200) := by
  refine ⟨fun h => _http_get_ok_of_200 env url h, ?_, ?_, ?_⟩
  · intro h
    refine ⟨"error reading '", "': ", " (", ")", ?_⟩
    simp [_http_get, h]
  · rintro ⟨e, he⟩ h200
    rw [_http_get_ok_of_200 env url h200] at he
    cases he
  · intro h
    exact ⟨"error reading '" ++ url ++ "': " ++ (env.resp url).reason ++ " (" ++
      toString (env.resp url).status ++ ")", by simp [_http_get, h]⟩

/-- C7 witness: at the 404 world the fetch fails with a message containing
the URL, the reason and the status; hypothesis discharged by evaluation. -/
theorem c7_http_get_witness :
    ∃ s1 s2 s3 s4, _http_get c7bad "u" =
      .error (s1 ++ "u" ++ s2 ++ (c7bad.resp "u").reason ++ s3 ++
        toString (c7bad.resp "u").status ++ s4) :=
  (c7_http_get c7bad "u").2.1 (by decide)

/-! ## Claim C8 -/

theorem option_map_mk {o : Option (List Char × List Char)} {cap : List Char}
    (h : o.map Prod.fst = some cap) :
    o.map (fun m => String.mk m.1) = some (String.mk cap) := by
  cases o with
  | none => cases h
  | some m => simp at h; simp [h]

/-- Claim C8: the extractors are total functions; they return the empty
sequence exactly when the pattern matches at no position of the input, and
otherwise the returned ids are the captures of genuine pattern matches at a
strictly increasing (left-to-right, first-occurrence) sequence of
positions. -/
theorem c8_extractors (s : String) :
    (_index_event_ids s = [] ↔ ∀ i, matchHere eventIdPat (s.data.drop i) = none) ∧
    (_speaker_ids s = [] ↔ ∀ i, matchHere speakerIdPat (s.data.drop i) = none) ∧
    (∃ ps, List.Chain' (· < ·) ps ∧
      List.Forall₂ (fun p id => (matchHere eventIdPat (s.data.drop p)).map
        (fun m => String.mk m.1) = some id) ps (_index_event_ids s)) ∧
    (∃ ps, List.Chain' (· < ·) ps ∧
      List.Forall₂ (fun p id => (matchHere speakerIdPat (s.data.drop p)).map
        (fun m => String.mk m.1) = some id) ps (_speaker_ids s)) := by
  have hiff : ∀ pat, (findallP pat s = [] ↔ ∀ i, matchHere pat (s.data.drop i) = none) := by
    intro pat
    unfold findallP
    rw [List.map_eq_nil_iff]
    exact scanAux_nil_iff pat s.data.length s.data 0 le_rfl
  have horder : ∀ pat, ∃ ps, List.Chain' (· < ·) ps ∧
      List.Forall₂ (fun p id => (matchHere pat (s.data.drop p)).map
        (fun m => String.mk m.1) = some id) ps (findallP pat s) := by
    intro pat
    refine ⟨(scanAux pat s.data.length 0 s.data).map Prod.fst, scanAux_chain pat _ 0 _, ?_⟩
    unfold findallP
    refine forall2_of_mem _ _ ?_
    intro pc hpc
    have h2 := (scanAux_sound pat s.data.length 0 s.data pc hpc).2
    rw [Nat.sub_zero] at h2
    exact option_map_mk h2
  exact ⟨hiff eventIdPat, hiff speakerIdPat, horder eventIdPat, horder speakerIdPat⟩

/-! ## Claim C9 -/

/-- The event document produced from a page with no recognised structure. -/
def emptyEventDoc (url : String) : Doc :=
  { url := url
    type := "event"
    subtype := ""
    title := ""
    description := ""
    org := ""
    content := "event\n\n\n" }

/-- Claim C9: the page parsers are total; every extracted field is the
stripped text of its structural landmark when the landmark is present and
`""` when it is absent; and a document whose fields are all empty is still
committed by the orchestrator (an event page with no recognised structure
and no speaker links yields a successfully committed batch holding exactly
the all-empty event document). -/
theorem c9_parser_total (es : List Elem) :
    (findTagCls "div" "maincardBody" es = none → _event_title es = "") ∧
    (∀ e, findTagCls "div" "maincardBody" es = some e → _event_title es = pyStrip e.text) ∧
    (findTagCls "div" "abstractContainer" es = none → _event_abstract es = "") ∧
    (∀ e, findTagCls "div" "abstractContainer" es = some e →
      _event_abstract es = pyStrip e.text) ∧
    (findTagCls "div" "pull-right maincardHeader maincardType" es = none →
      _event_type es = "") ∧
    (∀ e, findTagCls "div" "pull-right maincardHeader maincardType" es = some e →
      _event_type es = pyStrip e.text) ∧
    (findTag "h3" es = none → _speaker_name es = "" ∧ _speaker_bio es = "") ∧
    (∀ e, findTag "h3" es = some e → _speaker_name es = pyStrip e.text) ∧
    (findTag "h4" es = none → _speaker_org es = "") ∧
    (∀ e, findTag "h4" es = some e → _speaker_org es = pyStrip e.text) ∧
    (∀ e, findTag "h3" es = some e → findDivAfterH3 es = none → _speaker_bio es = "") ∧
    (∀ e b, findTag "h3" es = some e → findDivAfterH3 es = some b →
      _speaker_bio es = pyStrip b.text) ∧
    (∀ (env : Env) (url : String),
      (env.resp url).status = 200 →
      env.soup (pyStrip (env.resp url).text) = [] →
      _speaker_ids (pyStrip (env.resp url).text) = [] →
      _index_event env url = .ok [emptyEventDoc url]) := by
  refine ⟨?_, ?_, ?_, ?_, ?_, ?_, ?_, ?_, ?_, ?_, ?_, ?_, ?_⟩
  · intro h; simp [_event_title, h]
  · intro e h; simp [_event_title, h]
  · intro h; simp [_event_abstract, h]
  · intro e h; simp [_event_abstract, h]
  · intro h; simp [_event_type, h]
  · intro e h; simp [_event_type, h]
  · intro h; exact ⟨by simp [_speaker_name, h], by simp [_speaker_bio, h]⟩
  · intro e h; simp [_speaker_name, h]
  · intro h; simp [_speaker_org, h]
  · intro e h; simp [_speaker_org, h]
  · intro e h hb; simp [_speaker_bio, h, hb]
  · intro e b h hb; simp [_speaker_bio, h, hb]
  · intro env url h200 hsoup hsids
    have hget := _http_get_ok_of_200 env url h200
    simp only [_index_event, hget, except_bind_ok, hsids, mapE, except_pure, except_map_ok]
    have : _event_doc url (env.soup (pyStrip (env.resp url).text)) = emptyEventDoc url := by
      rw [hsoup]
      have hc : "\n".intercalate ["event", "", "", ""] = "event\n\n\n" := by decide
      simp only [_event_doc, emptyEventDoc, _event_title, _event_abstract, _event_type,
        findTagCls, List.find?_nil, hc]
    rw [this]

/-- A page with every landmark present (with whitespace to strip), used to
discharge the hypotheses of the parser claim on a concrete input; plus a
world whose event page is empty, whose all-empty document is still
committed. -/
def c9soup : List Elem :=
  [⟨"div", "maincardBody", " T "⟩, ⟨"h3", "", " N "⟩, ⟨"div", "", " B "⟩, ⟨"h4", "", " O "⟩]

/-- A world answering every URL with an empty 200 body. -/
def c9env : Env := ⟨fun _ => ⟨200, "OK", ""⟩, fun _ => [], none⟩

theorem c9_parser_total_witness :
    _event_title c9soup = "T" ∧ _speaker_name c9soup = "N" ∧ _speaker_bio c9soup = "B" ∧
    _speaker_org c9soup = "O" ∧ _event_abstract c9soup = "" ∧
    _index_event c9env (_event_url "9") = .ok [emptyEventDoc (_event_url "9")] := by
  have h := c9_parser_total c9soup
  refine ⟨?_, ?_, ?_, ?_, ?_, ?_⟩
  · exact (h.2.1 ⟨"div", "maincardBody", " T "⟩ (by decide)).trans (by decide)
  · exact (h.2.2.2.2.2.2.2.1 ⟨"h3", "", " N "⟩ (by decide)).trans (by decide)
  · exact (h.2.2.2.2.2.2.2.2.2.2.2.1 ⟨"h3", "", " N "⟩ ⟨"div", "", " B "⟩
      (by decide) (by decide)).trans (by decide)
  · exact (h.2.2.2.2.2.2.2.2.2.1 ⟨"h4", "", " O "⟩ (by decide)).trans (by decide)
  · exact (c9_parser_total c9soup).2.2.1 (by decide)
  · exact (c9_parser_total c9soup).2.2.2.2.2.2.2.2.2.2.2.2 c9env (_event_url "9")
      (by decide) (by decide) (by decide)

/-! ## Claim C1 -/

/-- Claim C1: with `maxNewEvents = N > 0`, every fetch succeeding and more
than N new event ids on the index page, the run commits exactly the batches
of the first N new event ids (each batch = event document plus all its
speaker documents), leaves the remaining ids unprocessed, and ends without
error. -/
theorem c1_cap_enforcement (env : Env) (N : Nat) (store0 : List Doc) (index_html : String)
    (hN : 0 < N)
    (h200 : ∀ u, (env.resp u).status = 200)
    (hhtml : _get_index_html env = .ok index_html)
    (hmore : N < (newIds (_read_data_urls store0) (_index_event_ids index_html)).length) :
    _build_index env (some (N : Int)) store0 =
      ⟨store0 ++ ((newIds (_read_data_urls store0) (_index_event_ids index_html)).take N).flatMap
        (fun id => _event_docs env (_event_url id)), none⟩ ∧
    ((newIds (_read_data_urls store0) (_index_event_ids index_html)).take N).length = N := by
  constructor
  · unfold _build_index
    rw [hhtml]
    have h := loop_cap env N hN (_read_data_urls store0) h200
      (_index_event_ids index_html) 0 store0 hN (by omega)
    simpa using h
  · simp [List.length_take]
    omega

theorem c1_cap_enforcement_witness :
    _build_index envC1 (some (2 : Int)) [] =
      ⟨[] ++ ((newIds (_read_data_urls ([] : List Doc)) (_index_event_ids htmlC1)).take 2).flatMap
        (fun id => _event_docs envC1 (_event_url id)), none⟩ ∧
    ((newIds (_read_data_urls ([] : List Doc)) (_index_event_ids htmlC1)).take 2).length = 2 :=
  c1_cap_enforcement envC1 2 [] htmlC1 (by decide) (fun u => rfl) rfl (by decide)

/-! ## Claim C2 -/

/-- Claim C2 as stated is false: with a cap, the first run can leave new
events unindexed, and the second run (same index page, no external store
changes) then writes new documents; in that case not every event URL of the
second run is in its starting snapshot. -/
theorem c2_counterexample :
    (_build_index envA (some 1) ((_build_index envA (some 1) []).store)).store ≠
      (_build_index envA (some 1) []).store ∧
    (_build_index envA (some 1) ((_build_index envA (some 1) []).store)).err = none ∧
    ¬ (∀ id ∈ _index_event_ids htmlA,
        _event_url id ∈ _read_data_urls ((_build_index envA (some 1) []).store)) := by
  exact ⟨by decide, by decide, by decide⟩

/-- Claim C2 (amended): when the FIRST run is uncapped and completes without
error, a second run from its final store (any cap) writes nothing and ends
without error, because every event URL of the index page is then in the
snapshot taken at the second run's start, so every event id is skipped. -/
theorem c2_idempotent (env : Env) (store0 : List Doc) (max2 : Option Int)
    (herr : (_build_index env none store0).err = none) :
    _build_index env max2 ((_build_index env none store0).store) =
      ⟨(_build_index env none store0).store, none⟩ ∧
    ∀ index_html, _get_index_html env = .ok index_html →
      ∀ id ∈ _index_event_ids index_html,
        _event_url id ∈ _read_data_urls ((_build_index env none store0).store) := by
  cases hidx : _get_index_html env with
  | error e =>
    unfold _build_index at herr
    rw [hidx] at herr
    cases herr
  | ok html =>
    have hall : ∀ id ∈ _index_event_ids html,
        _event_url id ∈ _read_data_urls ((_build_index env none store0).store) := by
      unfold _build_index at herr ⊢
      rw [hidx] at herr ⊢
      exact loop_none_all_urls env (_read_data_urls store0) (_index_event_ids html) 0 store0
        (fun u hu => hu) herr
    constructor
    · have hred : ∀ st : List Doc, _build_index env max2 st =
          _build_index_loop env max2 (_read_data_urls st) (_index_event_ids html) 0 st := by
        intro st
        unfold _build_index
        rw [hidx]
      rw [hred]
      exact loop_skip_all env max2 _ _ 0 _ hall
    · intro ih hih id hid
      injection hih with hh
      subst hh
      exact hall id hid

theorem c2_idempotent_witness :
    _build_index envA (some 5) ((_build_index envA none []).store) =
      ⟨(_build_index envA none []).store, none⟩ ∧
    ∀ index_html, _get_index_html envA = .ok index_html →
      ∀ id ∈ _index_event_ids index_html,
        _event_url id ∈ _read_data_urls ((_build_index envA none []).store) :=
  c2_idempotent envA [] (some 5) (by decide)

/-! ## Claim C3 -/

/-- Claim C3 as stated is false: one run over `envA` (speaker 7 appearing at
events 1 and 2, both new) stores the speaker document twice, so the stored
URLs are not pairwise distinct. -/
theorem c3_counterexample :
    ¬ (_read_data_urls ((_build_index envA none []).store)).Nodup := by decide

/-- Claim C3 (amended): the snapshot check protects exactly the event
documents — any document a run adds with `type = "event"` has a URL that was
not in the store at the run's start — but URL uniqueness does not hold in
general: a speaker at two events processed in one run is stored once per
event (see the counterexample). -/
theorem c3_event_urls_guarded (env : Env) (max_events : Option Int) (store0 : List Doc) :
    ∀ d ∈ (_build_index env max_events store0).store,
      d ∈ store0 ∨ (d.type = "event" → d.url ∉ _read_data_urls store0) := by
  intro d hd
  unfold _build_index at hd
  cases hidx : _get_index_html env with
  | error e =>
    rw [hidx] at hd
    exact Or.inl hd
  | ok html =>
    rw [hidx] at hd
    exact loop_event_new env max_events _ _ 0 store0 d hd

/-- The first document of the `envA` run: an event document, whose URL was
not in the (empty) starting snapshot. -/
def c3doc : Doc := _event_doc (_event_url "1") []

theorem c3_event_urls_guarded_witness :
    c3doc ∈ ([] : List Doc) ∨
      (c3doc.type = "event" → c3doc.url ∉ _read_data_urls ([] : List Doc)) :=
  c3_event_urls_guarded envA none [] c3doc (by decide)

/-! ## Claim C6 -/

/-- Claim C6: a non-success response aborts the run with that fetch's error,
with no retry; the starting store is always preserved, and on an abort the
final store is exactly the starting store plus the batches of the new events
fully processed before the failing one (the failing event's partial batch is
not committed: the whoosh writer cancels it). -/
theorem c6_abort_semantics (env : Env) (max_events : Option Int) (store0 : List Doc) :
    (∃ extra, (_build_index env max_events store0).store = store0 ++ extra) ∧
    (∀ e, (_build_index env max_events store0).err = some e →
      ((_build_index env max_events store0).store = store0 ∧ _get_index_html env = .error e) ∨
      (∃ index_html pre id post,
        _get_index_html env = .ok index_html ∧
        newIds (_read_data_urls store0) (_index_event_ids index_html) = pre ++ id :: post ∧
        (∀ i ∈ pre, _index_event env (_event_url i) = .ok (_event_docs env (_event_url i))) ∧
        _index_event env (_event_url id) = .error e ∧
        (_build_index env max_events store0).store =
          store0 ++ pre.flatMap (fun i => _event_docs env (_event_url i)))) := by
  cases hidx : _get_index_html env with
  | error e0 =>
    constructor
    · refine ⟨[], ?_⟩
      unfold _build_index
      rw [hidx]
      simp
    · intro e he
      unfold _build_index at he ⊢
      rw [hidx] at he ⊢
      simp only [Option.some.injEq] at he
      subst he
      exact Or.inl ⟨rfl, rfl⟩
  | ok html =>
    constructor
    · unfold _build_index
      rw [hidx]
      exact loop_store_mono env max_events _ _ 0 store0
    · intro e he
      unfold _build_index at he ⊢
      rw [hidx] at he ⊢
      obtain ⟨pre, id, post, h1, h2, h3, h4⟩ :=
        loop_err_some env max_events _ _ 0 store0 e he
      exact Or.inr ⟨html, pre, id, post, rfl, h1, h2, h3, h4⟩

/-- A world where event 2's page answers 500 while everything else is a
200. -/
def c6env : Env :=
  { resp := fun u =>
      if u = _event_url "2" then ⟨500, "Internal Server Error", ""⟩
      else ⟨200, "OK", ""⟩
    soup := fun _ => []
    cachedIndex := some htmlA }

/-- The abort message of the `c6env` run. -/
def c6msg : String := ((_build_index c6env none []).err).getD ""

theorem c6_abort_semantics_witness :
    ((_build_index c6env none []).store = [] ∧ _get_index_html c6env = .error c6msg) ∨
    (∃ index_html pre id post,
      _get_index_html c6env = .ok index_html ∧
      newIds (_read_data_urls ([] : List Doc)) (_index_event_ids index_html) =
        pre ++ id :: post ∧
      (∀ i ∈ pre, _index_event c6env (_event_url i) = .ok (_event_docs c6env (_event_url i))) ∧
      _index_event c6env (_event_url id) = .error c6msg ∧
      (_build_index c6env none []).store =
        [] ++ pre.flatMap (fun i => _event_docs c6env (_event_url i))) :=
  (c6_abort_semantics c6env none []).2 c6msg (by decide)

/-! ## Claim C10 -/

/-- Claim C10: a negative `maxNewEvents` with at least one new event
available still fires the cap check — exactly the first new event (with its
speakers) is indexed, then the run stops without error, because after one
indexed event the counter already satisfies `indexed >= max_events` for any
negative cap. -/
theorem c10_negative_cap (env : Env) (m : Int) (store0 : List Doc) (index_html : String)
    (id : String) (tl : List String)
    (hm : m < 0)
    (h200 : ∀ u, (env.resp u).status = 200)
    (hhtml : _get_index_html env = .ok index_html)
    (hnew : newIds (_read_data_urls store0) (_index_event_ids index_html) = id :: tl) :
    _build_index env (some m) store0 = ⟨store0 ++ _event_docs env (_event_url id), none⟩ := by
  unfold _build_index
  rw [hhtml]
  exact loop_neg_cap env m hm _ h200 _ 0 store0 id tl hnew

theorem c10_negative_cap_witness :
    _build_index envA (some (-3)) [] = ⟨[] ++ _event_docs envA (_event_url "1"), none⟩ :=
  c10_negative_cap envA (-3) [] htmlA "1" ["2"] (by decide) (fun u => rfl) rfl (by decide)

end NeurIPS
